import Mathlib

/-!
Verification of the application record reconciliation and deduplication engine
(app/services/data_service.py) against its specification.

The embedding models the mutable environment explicitly:
  - the record store (the CSV file body, header excluded) is a list of rows;
  - the research cache directory is a map from file name to optional raw content;
  - the external generation collaborator is a function returning an optional body
    (none models generate_company_research returning None on failure; that
    function catches every exception internally, so it never raises);
  - fallible I/O is modelled by boolean switches (readOk, appendOk, writeOk);
    a Python exception that the source catches is modelled by the corresponding
    Except value being consumed by the matching handler.
Rows persisted by this program always carry the four text columns as strings;
the research column is optional so that legacy files whose header lacks the
research column are representable (DictReader then yields rows without that key).
A candidate record handed to save_to_csv is a Python dict whose keys may be
absent, None, or a string; FieldVal models exactly these three cases.
-/

/-- Python str.strip: drop leading and trailing whitespace. Implemented over
the character list so that concrete inputs evaluate by kernel reduction. -/
def trimStr (s : String) : String :=
  ⟨((s.data.dropWhile Char.isWhitespace).reverse.dropWhile
      Char.isWhitespace).reverse⟩

/-- Python str.lower (ASCII letters, the alphabet the data uses). -/
def lowerStr (s : String) : String := ⟨s.data.map Char.toLower⟩

/-- Python str.replace with a single-character pattern, as the source uses it. -/
def replaceChar (a b : Char) (s : String) : String :=
  ⟨s.data.map (fun c => if c = a then b else c)⟩

/-- Python truthiness-or-blank test used on company names:
not s or s.strip() == "". -/
def strFalsyOrBlank (s : String) : Bool := s == "" || trimStr s == ""

/-- Value of one key of the candidate dict passed to save_to_csv: the key can be
missing, present with value None, or present with a string. -/
inductive FieldVal where
  | absent
  | null
  | str (s : String)
deriving DecidableEq, Repr

/-- Python membership test used by the required-fields check: key in data. -/
def FieldVal.present : FieldVal → Bool
  | .absent => false
  | _ => true

/-- Python x.lower before comparison: raises (AttributeError / KeyError) unless
the value is an actual string. -/
def FieldVal.lowerE : FieldVal → Except Unit String
  | .str s => .ok (lowerStr s)
  | _ => .error ()

/-- What csv.DictWriter writes for the value: None becomes the empty cell. -/
def FieldVal.toCsv : FieldVal → String
  | .str s => s
  | _ => ""

/-- The blank-company validation on a dict value: not data-company or
data-company.strip() == "". A None value is falsy, hence blank. -/
def FieldVal.blankCompany : FieldVal → Bool
  | .str s => strFalsyOrBlank s
  | _ => true

/-- One parsed row of the record store (one line of the CSV below the header). -/
structure AppRow where
  title : String
  company : String
  status : String
  date : String
  research : Option String
deriving DecidableEq, Repr

/-- The candidate dict handed to save_to_csv (keys title, company, status,
date; the research key is attached by save_to_csv itself). -/
structure AppData where
  title : FieldVal
  company : FieldVal
  status : FieldVal
  date : FieldVal
deriving DecidableEq, Repr

/-- State of the research directory: file name to raw file content. -/
abbrev FileStore := String → Option String

def updateFile (files : FileStore) (name content : String) : FileStore :=
  fun n => if n = name then some content else files n

/-- company.replace both path separators with an underscore
(lines 67-68 and 262-263 of data_service.py). -/
def safeFilename (company : String) : String :=
  replaceChar '\\' '_' (replaceChar '/' '_' company)

/-- The research file name for a company; the constant RESEARCH_DIR prefix is
common to every access and is dropped from the model. -/
def researchPath (company : String) : String := safeFilename company ++ ".txt"

/-- Split a character list at newlines (the pieces do not keep the newline);
an empty input yields one empty piece, as Python split does. -/
def splitNl : List Char → List (List Char)
  | [] => [[]]
  | c :: rest =>
    let r := splitNl rest
    if c = '\n' then [] :: r
    else
      match r with
      | [] => [[c]]
      | h :: t => (c :: h) :: t

/-- Python file.readlines: split the raw content into lines, each keeping its
trailing newline; a final fragment without a newline is kept as-is. -/
def readlines (s : String) : List String :=
  match (splitNl s.data).reverse with
  | [] => []
  | lastPart :: revInit =>
    (revInit.reverse.map (fun l => ⟨l ++ ['\n']⟩)) ++
      (if lastPart.isEmpty then [] else [⟨lastPart⟩])

/-- Concatenation of a list of strings, modelling the empty-separator join. -/
def joinStr (l : List String) : String := ⟨(l.map String.data).flatten⟩

/-- Content written for a fresh research note: the two metadata lines, a blank
line, then the body (lines 84-86 and 277-279 of data_service.py). -/
def researchContent (company ts body : String) : String :=
  "Company Research for " ++ company ++ "\n" ++
    "Date Generated: " ++ ts ++ "\n\n" ++ body

/-- Result of JobApplicationTracker._get_company_research: the returned body,
the research directory afterwards, and whether generate_company_research ran. -/
structure GRes where
  body : String
  files : FileStore
  genCalled : Bool

/-- JobApplicationTracker._get_company_research (lines 50-93). The ts argument
models datetime.now. A file whose content has more than three lines yields the
cached body (lines four onward, stripped); otherwise the generator is invoked,
its truthy result is persisted and returned, and a falsy result yields the
empty string without a write. -/
def getCompanyResearch (gen : String → Option String) (ts : String)
    (files : FileStore) (company : String) : GRes :=
  if strFalsyOrBlank company then ⟨"No company name provided", files, false⟩
  else
    let fname := researchPath company
    let cachedBody : Option String :=
      match files fname with
      | some content =>
        let lines := readlines content
        if 3 < lines.length then some (trimStr (joinStr (lines.drop 3)))
        else none
      | none => none
    match cachedBody with
    | some body => ⟨body, files, false⟩
    | none =>
      match gen company with
      | some r =>
        if r = "" then ⟨"", files, true⟩
        else ⟨r, updateFile files fname (researchContent company ts r), true⟩
      | none => ⟨"", files, true⟩

/-- JobApplicationTracker.get_all_applications (lines 161-179): on any read
failure the handler returns the empty list, so callers cannot distinguish an
unreadable store from an empty one. -/
def get_all_applications (readOk : Bool) (store : List AppRow) : List AppRow :=
  if readOk then store else []

/-- The scan of _is_duplicate (lines 37-45): for each existing row, lower the
candidate title, compare, and only on a title match lower the candidate company
(Python short-circuit and); a non-string candidate value raises, modelled as
Except.error. -/
def scanLoop : List AppRow → FieldVal → FieldVal → Except Unit Bool
  | [], _, _ => .ok false
  | r :: rest, ft, fc =>
    match ft.lowerE with
    | .error e => .error e
    | .ok dt =>
      if lowerStr r.title = dt then
        match fc.lowerE with
        | .error e => .error e
        | .ok dc =>
          if lowerStr r.company = dc then .ok true else scanLoop rest ft fc
      else scanLoop rest ft fc

/-- JobApplicationTracker._is_duplicate (lines 23-48): any exception during the
scan is caught and the candidate is assumed not to be a duplicate. -/
def is_duplicate (readOk : Bool) (store : List AppRow) (data : AppData) : Bool :=
  match scanLoop (get_all_applications readOk store) data.title data.company with
  | .ok b => b
  | .error _ => false

/-- Environment of one save_to_csv call: store readability, research directory,
generation collaborator, timestamp and whether the final append write succeeds. -/
structure SaveEnv where
  readOk : Bool
  files : FileStore
  gen : String → Option String
  ts : String
  appendOk : Bool

/-- Observable outcome of save_to_csv: the returned boolean, the store body and
research directory afterwards, whether _get_company_research was invoked and
whether generate_company_research was invoked. -/
structure SaveOut where
  ok : Bool
  store : List AppRow
  files : FileStore
  researchCalled : Bool
  genCalled : Bool

/-- all(field in data for field in required_fields) at line 113. -/
def requiredPresent (data : AppData) : Bool :=
  data.title.present && data.company.present &&
    data.status.present && data.date.present

/-- The row appended by writer.writerow(safe_data): the safe_data copy loop
(lines 142-148) copies every value unchanged; DictWriter renders None as an
empty cell; the research key always holds the string computed at lines 131-139. -/
def mkRow (data : AppData) (research : String) : AppRow :=
  ⟨data.title.toCsv, data.company.toCsv, data.status.toCsv, data.date.toCsv,
    some research⟩

/-- JobApplicationTracker.save_to_csv (lines 95-159), in source order: required
fields, blank company, duplicate check (a duplicate is a no-op success),
research resolution, append. The append is the only statement of the guarded
block that can raise; a failed append is caught and returns false. -/
def save_to_csv (env : SaveEnv) (store : List AppRow) (data : AppData) : SaveOut :=
  if requiredPresent data = false then ⟨false, store, env.files, false, false⟩
  else if data.company.blankCompany = true then
    ⟨false, store, env.files, false, false⟩
  else if is_duplicate env.readOk store data = true then
    ⟨true, store, env.files, false, false⟩
  else
    let gr := getCompanyResearch env.gen env.ts env.files data.company.toCsv
    if env.appendOk then
      ⟨true, store ++ [mkRow data gr.body], gr.files, true, gr.genCalled⟩
    else ⟨false, store, gr.files, true, gr.genCalled⟩

/-- The dedup identity key (lowercased title, lowercased company), line 207. -/
abbrev RowKey := String × String

def rowKey (r : AppRow) : RowKey := (lowerStr r.title, lowerStr r.company)

/-- The invalid-entry test of remove_duplicates (line 202):
not app.get(company) or app.get(company, empty).strip() == "". -/
def rowCompanyBlank (r : AppRow) : Bool := strFalsyOrBlank r.company

/-- Python dict assignment unique_apps[key] = app: an existing key keeps its
position and gets the new value, a new key is appended at the end (dicts
iterate in insertion order). -/
def upsert : List (RowKey × AppRow) → RowKey → AppRow → List (RowKey × AppRow)
  | [], k, v => [(k, v)]
  | (k', v') :: rest, k, v =>
    if k' = k then (k, v) :: rest else (k', v') :: upsert rest k v

/-- The accumulation loop of remove_duplicates (lines 200-209): rows with a
blank company are skipped (collected only for logging), every other row is
upserted under its key, so the last occurrence of a key wins. -/
def dedupMapAux : List (RowKey × AppRow) → List AppRow → List (RowKey × AppRow)
  | m, [] => m
  | m, a :: rest =>
    dedupMapAux (if rowCompanyBlank a then m else upsert m (rowKey a) a) rest

def dedupMap (apps : List AppRow) : List (RowKey × AppRow) := dedupMapAux [] apps

/-- The rewrite loop of remove_duplicates (lines 215-220): each surviving row
missing the research key is backfilled via _get_company_research (threading the
research directory state), then written out in mapping order. -/
def writeOut (gen : String → Option String) (ts : String) :
    FileStore → List AppRow → List AppRow × FileStore
  | files, [] => ([], files)
  | files, a :: rest =>
    match a.research with
    | some _ =>
      let p := writeOut gen ts files rest
      (a :: p.1, p.2)
    | none =>
      let gr := getCompanyResearch gen ts files a.company
      let p := writeOut gen ts gr.files rest
      ({ a with research := some gr.body } :: p.1, p.2)

/-- Observable outcome of remove_duplicates: the returned boolean, the store
body after the call and the research directory afterwards. -/
structure DedupOut where
  ok : Bool
  store : List AppRow
  files : FileStore

/-- JobApplicationTracker.remove_duplicates (lines 181-231). An unreadable
store is swallowed upstream: get_all_applications yields the empty list, the
empty-store early exit then returns True without touching the file. -/
def remove_duplicates (readOk : Bool) (gen : String → Option String) (ts : String)
    (store : List AppRow) (files : FileStore) : DedupOut :=
  let applications := get_all_applications readOk store
  if applications.isEmpty then ⟨true, store, files⟩
  else
    let uniq := dedupMap applications
    let p := writeOut gen ts files (uniq.map Prod.snd)
    ⟨true, p.1, p.2⟩

/-- JobApplicationTracker._ensure_files_exist (lines 15-21): no handler guards
the creation write, so a failure to create the missing CSV file propagates to
the caller of the constructor. -/
def ensure_files_exist (csvExists : Bool) (createOk : Bool) : Except Unit Unit :=
  if csvExists then .ok () else if createOk then .ok () else .error ()

/-- The per-company loop of generate_research_for_all_companies (lines
256-284). The write at line 276 is not guarded per company: a write failure
raises out of the loop to the handler of the whole function, modelled by
Except.error carrying the directory state at that point. A falsy generation
result is logged and skipped without aborting. -/
def genResearchLoop (gen : String → Option String) (ts : String)
    (writeOk : String → Bool) :
    List String → FileStore → Nat → Except FileStore (Nat × FileStore)
  | [], files, n => .ok (n, files)
  | c :: rest, files, n =>
    if strFalsyOrBlank c then genResearchLoop gen ts writeOk rest files n
    else
      let fname := researchPath c
      if (files fname).isSome then genResearchLoop gen ts writeOk rest files n
      else
        match gen c with
        | some r =>
          if r = "" then genResearchLoop gen ts writeOk rest files n
          else if writeOk fname then
            genResearchLoop gen ts writeOk rest
              (updateFile files fname (researchContent c ts r)) (n + 1)
          else .error files
        | none => genResearchLoop gen ts writeOk rest files n

/-- generate_research_for_all_companies (lines 233-291). The company set built
at line 250 iterates in an order Python leaves unspecified; the model fixes the
deduplicated store order. The handler of the whole function returns 0. -/
def generate_research_for_all_companies (gen : String → Option String)
    (ts : String) (writeOk : String → Bool) (readOk : Bool)
    (store : List AppRow) (files : FileStore) : Nat × FileStore :=
  let applications := get_all_applications readOk store
  if applications.isEmpty then (0, files)
  else
    match genResearchLoop gen ts writeOk
        ((applications.map (fun a => a.company)).dedup) files 0 with
    | .ok res => res
    | .error f => (0, f)

/-- Modelled from the spec: the per-company procedure that section 4.2 words as
generateMissing - skip blank names, skip names whose cache entry exists,
otherwise generate, persist on a truthy result and count it, and continue past
a generation failure. Used to state what the source loop computes when every
cache write succeeds. -/
def generateMissingSpec (gen : String → Option String) (ts : String) :
    List String → FileStore → Nat × FileStore
  | [], files => (0, files)
  | c :: rest, files =>
    if strFalsyOrBlank c then generateMissingSpec gen ts rest files
    else if (files (researchPath c)).isSome then generateMissingSpec gen ts rest files
    else
      match gen c with
      | some r =>
        if r = "" then generateMissingSpec gen ts rest files
        else
          let res := generateMissingSpec gen ts rest
            (updateFile files (researchPath c) (researchContent c ts r))
          (res.1 + 1, res.2)
      | none => generateMissingSpec gen ts rest files

/-- The last store-order occurrence of a valid (non-blank-company) row carrying
the given identity key; the selector used to state the last-wins property. -/
def lastMatch (k : RowKey) : List AppRow → Option AppRow
  | [] => none
  | a :: rest =>
    match lastMatch k rest with
    | some b => some b
    | none =>
      if rowCompanyBlank a = false ∧ rowKey a = k then some a else none

/-- Association lookup in the accumulated mapping. -/
def findKey (k : RowKey) : List (RowKey × AppRow) → Option AppRow
  | [] => none
  | (k', v) :: rest => if k' = k then some v else findKey k rest

/-! Claim C5: a blank company is rejected before any other work. -/

/-- Claim C5: for every candidate record whose company value is a string that
is empty or whitespace after trimming, save_to_csv returns failure, leaves the
store and the research directory untouched, and consults neither
_get_company_research nor the generation collaborator. -/
theorem save_blank_company_rejected (env : SaveEnv) (store : List AppRow)
    (data : AppData) (c : String) (hc : data.company = .str c)
    (hblank : trimStr c = "") :
    save_to_csv env store data = ⟨false, store, env.files, false, false⟩ := by
  have hbc : data.company.blankCompany = true := by
    rw [hc]; simp [FieldVal.blankCompany, strFalsyOrBlank, hblank]
  rcases Bool.eq_false_or_eq_true (requiredPresent data) with h | h
  · unfold save_to_csv
    rw [if_neg (by simp [h]), if_pos hbc]
  · simp [save_to_csv, h]

def envW5 : SaveEnv := ⟨true, fun _ => none, fun _ => none, "2024-01-01", true⟩

def dataW5 : AppData := ⟨.str "X", .str "   ", .str "S", .str "D"⟩

/-- Witness for claim C5 at a concrete whitespace-only company. -/
theorem save_blank_company_rejected_witness :
    dataW5.company = FieldVal.str "   " ∧ trimStr "   " = "" ∧
    save_to_csv envW5 [] dataW5 = ⟨false, [], envW5.files, false, false⟩ :=
  ⟨rfl, by decide, save_blank_company_rejected envW5 [] dataW5 "   " rfl (by decide)⟩

/-! Claim C6: behaviour of remove_duplicates when the store read fails. -/

/-- Claim C6 (amended): a failed store read does not abort remove_duplicates
with a failure; get_all_applications swallows the error and returns the empty
list, so remove_duplicates takes the empty-store early exit and returns
success, leaving the store contents and research directory unchanged. -/
theorem dedup_read_failure_returns_success (gen : String → Option String)
    (ts : String) (store : List AppRow) (files : FileStore) :
    remove_duplicates false gen ts store files = ⟨true, store, files⟩ := rfl

def rowSample : AppRow := ⟨"Engineer", "Acme", "Submitted", "2024-01-01", some ""⟩

/-- Counterexample to claim C6 as stated: with a nonempty underlying store and
a failing read, remove_duplicates reports success (ok = true), not failure. -/
theorem dedup_read_failure_cex :
    (remove_duplicates false (fun _ => none) "ts" [rowSample] (fun _ => none)).ok
        = true ∧
    (remove_duplicates false (fun _ => none) "ts" [rowSample]
        (fun _ => none)).store = [rowSample] :=
  ⟨rfl, rfl⟩

/-! Claim C9: which public operations can raise. -/

/-- Claim C9 (amended): initialization is the exception to the no-raise rule:
_ensure_files_exist propagates a failure to create the missing CSV file, and it
raises exactly when the file is absent and its creation fails. Every other
modelled operation of the store and reconciler is total and returns its
success/failure signal. -/
theorem ensure_files_error_iff (csvExists createOk : Bool) :
    ensure_files_exist csvExists createOk = .error () ↔
      (csvExists = false ∧ createOk = false) := by
  cases csvExists <;> cases createOk <;> simp [ensure_files_exist]

/-- Counterexample to claim C9 as stated: when the CSV file is absent and its
creation fails, the exception escapes the constructor. -/
theorem initialize_raises_cex : ensure_files_exist false false = Except.error () :=
  rfl

/-! Claim C4: when a cached research note blocks regeneration. -/

/-- Claim C4 (amended): for a non-blank company whose cache file exists and has
more than three lines, _get_company_research returns the cached body (lines
four onward, stripped), leaves the directory unchanged and never invokes the
generation collaborator. A cache file of three or fewer lines does not block
regeneration (see the counterexample). -/
theorem research_cache_hit_long_file (gen : String → Option String) (ts : String)
    (files : FileStore) (c content : String)
    (hblank : strFalsyOrBlank c = false)
    (hfile : files (researchPath c) = some content)
    (hlen : 3 < (readlines content).length) :
    getCompanyResearch gen ts files c =
      ⟨trimStr (joinStr ((readlines content).drop 3)), files, false⟩ := by
  simp [getCompanyResearch, hblank, hfile, hlen]

def contentW4 : String :=
  "Company Research for Acme\nDate Generated: x\n\nBody one.\nBody two."

def filesW4 : FileStore := fun n => if n = "Acme.txt" then some contentW4 else none

/-- Witness for claim C4 (amended) on a concrete four-line-plus cache file. -/
theorem research_cache_hit_witness :
    strFalsyOrBlank "Acme" = false ∧
    filesW4 (researchPath "Acme") = some contentW4 ∧
    3 < (readlines contentW4).length ∧
    getCompanyResearch (fun _ => some "GEN") "ts" filesW4 "Acme" =
      ⟨trimStr (joinStr ((readlines contentW4).drop 3)), filesW4, false⟩ :=
  ⟨by decide, by decide, by decide,
    research_cache_hit_long_file _ _ _ _ _ (by decide) (by decide) (by decide)⟩

def filesShort : FileStore := fun n => if n = "Acme.txt" then some "" else none

/-- Counterexample to claim C4 as stated: a cache file for Acme exists (empty
content, hence no more than three lines), yet the generation collaborator is
invoked and its result is returned. -/
theorem research_cache_hit_cex :
    (filesShort (researchPath "Acme")).isSome = true ∧
    (getCompanyResearch (fun _ => some "Generated body") "ts" filesShort
        "Acme").genCalled = true ∧
    (getCompanyResearch (fun _ => some "Generated body") "ts" filesShort
        "Acme").body = "Generated body" :=
  ⟨by decide, by decide, by decide⟩

/-! Claim C7: a failed append is caught and the store is left untouched. -/

/-- Claim C7: on the only path of save_to_csv that mutates the store, a raise
at the append step is caught, the call returns false, and the store is exactly
as before the call; every earlier fallible step (duplicate scan, research
resolution) catches its own exceptions internally, so the append is the only
statement of the guarded block that can raise. -/
theorem save_append_failure_unchanged (env : SaveEnv) (store : List AppRow)
    (data : AppData)
    (h1 : requiredPresent data = true)
    (h2 : data.company.blankCompany = false)
    (h3 : is_duplicate env.readOk store data = false)
    (h4 : env.appendOk = false) :
    (save_to_csv env store data).ok = false ∧
    (save_to_csv env store data).store = store := by
  simp [save_to_csv, h1, h2, h3, h4]

def envW7 : SaveEnv := ⟨true, fun _ => none, fun _ => none, "ts", false⟩

def dataW7 : AppData :=
  ⟨.str "Engineer", .str "Acme", .str "Submitted", .str "2024-01-01"⟩

/-- Witness for claim C7: a concrete valid, non-duplicate candidate whose
append fails. -/
theorem save_append_failure_witness :
    requiredPresent dataW7 = true ∧ dataW7.company.blankCompany = false ∧
    is_duplicate envW7.readOk [] dataW7 = false ∧ envW7.appendOk = false ∧
    ((save_to_csv envW7 [] dataW7).ok = false ∧
      (save_to_csv envW7 [] dataW7).store = []) :=
  ⟨by decide, by decide, by decide, by decide,
    save_append_failure_unchanged envW7 [] dataW7 (by decide) (by decide)
      (by decide) (by decide)⟩

/-! Shared characterizations of the duplicate scan and the blank test. -/

/-- With string-valued candidate fields the scan never raises and computes the
case-insensitive any-match over the listed rows. -/
theorem scanLoop_str (t c : String) : ∀ rows : List AppRow,
    scanLoop rows (.str t) (.str c) =
      .ok (rows.any fun r =>
        decide (lowerStr r.title = lowerStr t ∧ lowerStr r.company = lowerStr c))
  | [] => rfl
  | r :: rest => by
    rw [scanLoop]
    simp only [FieldVal.lowerE]
    by_cases h1 : lowerStr r.title = lowerStr t
    · by_cases h2 : lowerStr r.company = lowerStr c
      · simp [h1, h2]
      · simp [h1, h2, scanLoop_str t c rest]
    · simp [h1, scanLoop_str t c rest]

/-- A string company that is non-blank after trimming passes the blank test. -/
theorem blankCompany_str_false (data : AppData) (c : String)
    (hc : data.company = .str c) (hcb : trimStr c ≠ "") :
    data.company.blankCompany = false := by
  rw [hc]
  simp only [FieldVal.blankCompany, strFalsyOrBlank, Bool.or_eq_false_iff]
  constructor
  · rw [beq_eq_false_iff_ne]
    intro h0
    apply hcb
    rw [h0]
    rfl
  · rw [beq_eq_false_iff_ne]
    exact hcb

/-! Claim C1: saving a duplicate is a no-op success. -/

/-- Claim C1 (amended): for a readable store and a candidate whose four fields
are present, whose title and company are strings with the company non-blank
after trimming, and whose lowercased (title, company) pair equals that of some
stored row, save_to_csv returns success and performs no append, no research
lookup and no generation: the whole state is unchanged. -/
theorem save_duplicate_noop (env : SaveEnv) (store : List AppRow)
    (data : AppData) (t c : String)
    (ht : data.title = .str t) (hc : data.company = .str c)
    (hst : data.status.present = true) (hdt : data.date.present = true)
    (hcb : trimStr c ≠ "")
    (hread : env.readOk = true)
    (hdup : ∃ r ∈ store,
      lowerStr r.title = lowerStr t ∧ lowerStr r.company = lowerStr c) :
    save_to_csv env store data = ⟨true, store, env.files, false, false⟩ := by
  have hreq : requiredPresent data = true := by
    simp [requiredPresent, ht, hc, hst, hdt]
    exact ⟨rfl, rfl⟩
  have hblankF := blankCompany_str_false data c hc hcb
  have hdupT : is_duplicate env.readOk store data = true := by
    unfold is_duplicate
    rw [ht, hc, scanLoop_str, hread]
    have hga : get_all_applications true store = store := rfl
    rw [hga, List.any_eq_true]
    obtain ⟨r, hr, h1, h2⟩ := hdup
    exact ⟨r, hr, by simp [h1, h2]⟩
  unfold save_to_csv
  rw [if_neg (by simp [hreq]), if_neg (by simp [hblankF]), if_pos hdupT]

def envW1 : SaveEnv := ⟨true, fun _ => none, fun _ => none, "ts", true⟩

def rowW1 : AppRow := ⟨"Engineer", "Acme", "Submitted", "2024-01-01", some ""⟩

def dataW1 : AppData :=
  ⟨.str "engineer", .str "ACME", .str "Viewed", .str "2024-02-02"⟩

/-- Witness for claim C1 (amended): the store holds (Engineer, Acme); saving a
candidate with the same pair up to case, different status and date, succeeds
without growing the store. -/
theorem save_duplicate_noop_witness :
    (∃ r ∈ [rowW1],
      lowerStr r.title = lowerStr "engineer" ∧
        lowerStr r.company = lowerStr "ACME") ∧
    save_to_csv envW1 [rowW1] dataW1 = ⟨true, [rowW1], envW1.files, false, false⟩ :=
  ⟨by decide,
    save_duplicate_noop envW1 [rowW1] dataW1 "engineer" "ACME" rfl rfl
      (by decide) (by decide) (by decide) rfl (by decide)⟩

def envC1 : SaveEnv := ⟨true, fun _ => none, fun _ => none, "ts", true⟩

def rowC1 : AppRow := ⟨"X", "", "S", "D", some ""⟩

def dataC1 : AppData := ⟨.str "X", .str "", .str "S", .str "D"⟩

/-- Counterexample to claim C1 as stated: the candidate's lowercased
(title, company) pair equals that of a stored row, yet save_to_csv returns
failure (the blank-company validation precedes the duplicate check), so a
duplicate save is not universally a no-op success. -/
theorem save_duplicate_blank_cex :
    (∃ r ∈ [rowC1],
      lowerStr r.title = lowerStr "X" ∧ lowerStr r.company = lowerStr "") ∧
    dataC1.title = FieldVal.str "X" ∧ dataC1.company = FieldVal.str "" ∧
    (save_to_csv envC1 [rowC1] dataC1).ok = false ∧
    (save_to_csv envC1 [rowC1] dataC1).store = [rowC1] :=
  ⟨by decide, rfl, rfl, by decide, by decide⟩

/-! Claim C10: an exception inside the duplicate check yields not-a-duplicate
and save_to_csv proceeds to append. -/

/-- Claim C10: when the duplicate scan raises (here: the candidate title is
None, so title.lower() raises on the first compared row of a nonempty store),
_is_duplicate catches the exception and returns false, and save_to_csv
proceeds to append the candidate - even if a stored row carries the same
identity key, so a duplicate row can be created. -/
theorem isdup_error_save_appends (env : SaveEnv) (store : List AppRow)
    (data : AppData) (c : String) (r0 : AppRow) (rest : List AppRow)
    (hT : data.title = .null)
    (hC : data.company = .str c) (hcb : trimStr c ≠ "")
    (hS : data.status.present = true) (hD : data.date.present = true)
    (hstore : store = r0 :: rest)
    (hread : env.readOk = true) (happ : env.appendOk = true) :
    is_duplicate env.readOk store data = false ∧
    (save_to_csv env store data).ok = true ∧
    (save_to_csv env store data).store =
      store ++ [mkRow data
        (getCompanyResearch env.gen env.ts env.files data.company.toCsv).body] := by
  have hreq : requiredPresent data = true := by
    simp [requiredPresent, hT, hC, hS, hD]
    exact ⟨rfl, rfl⟩
  have hblankF := blankCompany_str_false data c hC hcb
  have hdupF : is_duplicate env.readOk store data = false := by
    unfold is_duplicate
    rw [hread, hstore, hT]
    have hga : get_all_applications true (r0 :: rest) = r0 :: rest := rfl
    rw [hga]
    simp [scanLoop, FieldVal.lowerE]
  refine ⟨hdupF, ?_, ?_⟩ <;>
    · unfold save_to_csv
      rw [if_neg (by simp [hreq]), if_neg (by simp [hblankF]),
        if_neg (by simp [hdupF]), if_pos happ]

def envW10 : SaveEnv :=
  ⟨true, fun _ => none, fun c => some ("About " ++ c), "ts", true⟩

def rowW10 : AppRow := ⟨"", "acme", "S", "D", some ""⟩

def dataW10 : AppData := ⟨.null, .str "Acme", .str "S", .str "D"⟩

/-- Witness for claim C10: the store already holds a row whose identity key
equals that of the appended row, so the append creates a duplicate key. -/
theorem isdup_error_save_appends_witness :
    dataW10.title = FieldVal.null ∧
    rowKey (mkRow dataW10
      (getCompanyResearch envW10.gen envW10.ts envW10.files
        dataW10.company.toCsv).body) = rowKey rowW10 ∧
    (is_duplicate envW10.readOk [rowW10] dataW10 = false ∧
      (save_to_csv envW10 [rowW10] dataW10).ok = true ∧
      (save_to_csv envW10 [rowW10] dataW10).store =
        [rowW10] ++ [mkRow dataW10
          (getCompanyResearch envW10.gen envW10.ts envW10.files
            dataW10.company.toCsv).body]) :=
  ⟨rfl, by decide,
    isdup_error_save_appends envW10 [rowW10] dataW10 "Acme" rowW10 [] rfl rfl
      (by decide) (by decide) (by decide) rfl rfl rfl⟩

/-! Claim C8: generate_research_for_all_companies. -/

/-- When every cache write succeeds, the source loop never aborts and computes
exactly the count and directory of the spec procedure, starting from any
accumulator. -/
theorem genResearchLoop_allwrites (gen : String → Option String) (ts : String) :
    ∀ (cs : List String) (files : FileStore) (n : Nat),
      genResearchLoop gen ts (fun _ => true) cs files n =
        .ok (n + (generateMissingSpec gen ts cs files).1,
          (generateMissingSpec gen ts cs files).2)
  | [], files, n => by simp [genResearchLoop, generateMissingSpec]
  | c :: rest, files, n => by
    rw [genResearchLoop, generateMissingSpec]
    by_cases hb : strFalsyOrBlank c = true
    · rw [if_pos hb, if_pos hb, genResearchLoop_allwrites gen ts rest files n]
    · rw [if_neg hb, if_neg hb]
      by_cases hcach : (files (researchPath c)).isSome = true
      · rw [if_pos hcach, if_pos hcach,
          genResearchLoop_allwrites gen ts rest files n]
      · rw [if_neg hcach, if_neg hcach]
        cases hg : gen c with
        | none =>
          dsimp only
          rw [genResearchLoop_allwrites gen ts rest files n]
        | some r =>
          dsimp only
          by_cases hr : r = ""
          · rw [if_pos hr, if_pos hr,
              genResearchLoop_allwrites gen ts rest files n]
          · rw [if_neg hr, if_neg hr, if_pos (rfl : (true : Bool) = true),
              genResearchLoop_allwrites gen ts rest
                (updateFile files (researchPath c) (researchContent c ts r))
                (n + 1)]
            simp only [Except.ok.injEq, Prod.mk.injEq]
            exact ⟨by omega, trivial⟩

/-- Claim C8 (amended): when every cache-file write succeeds the batch runs to
completion: blank names and already-cached names are skipped, each remaining
name is generated and (on a truthy result) persisted and counted, a generation
failure for one company is non-fatal and processing continues, and the call
returns the count of newly generated notes - the whole call equals the spec
procedure generateMissingSpec on the deduplicated company list. A cache-file
write failure, by contrast, aborts the batch (see the counterexample). -/
theorem generate_research_all_writes_ok (gen : String → Option String)
    (ts : String) (store : List AppRow) (files : FileStore) :
    generate_research_for_all_companies gen ts (fun _ => true) true store files =
      if store.isEmpty then (0, files)
      else generateMissingSpec gen ts
        ((store.map (fun a => a.company)).dedup) files := by
  unfold generate_research_for_all_companies
  have hga : get_all_applications true store = store := rfl
  rw [hga]
  by_cases h : store.isEmpty
  · rw [if_pos h, if_pos h]
  · rw [if_neg h, if_neg h, genResearchLoop_allwrites]
    simp

def rowA8 : AppRow := ⟨"T1", "Alpha", "S", "D", some ""⟩

def rowB8 : AppRow := ⟨"T2", "Beta", "S", "D", some ""⟩

def writeOk8 : String → Bool := fun n => !(n == "Alpha.txt")

def gen8 : String → Option String := fun c => some ("About " ++ c)

/-- Counterexample to claim C8 as stated: the write of the first processed
company fails, the exception leaves the per-company loop, and the call returns
0 with the remaining company Beta never processed (its note is generatable and
absent from the cache, yet no file for it is persisted), so a failure for one
company is not isolated. -/
theorem generate_research_write_abort_cex :
    gen8 "Beta" = some "About Beta" ∧
    (generate_research_for_all_companies gen8 "ts" writeOk8 true [rowA8, rowB8]
      (fun _ => none)).1 = 0 ∧
    (generate_research_for_all_companies gen8 "ts" writeOk8 true [rowA8, rowB8]
      (fun _ => none)).2 "Beta.txt" = none :=
  ⟨rfl, by decide, by decide⟩

/-! Lemmas about the accumulated mapping of remove_duplicates. -/

/-- Lookup after a dict assignment: the assigned key now maps to the new value,
every other key is untouched. -/
theorem findKey_upsert (k k' : RowKey) (v : AppRow) : ∀ m : List (RowKey × AppRow),
    findKey k (upsert m k' v) = if k' = k then some v else findKey k m
  | [] => by
    by_cases h : k' = k <;> simp [upsert, findKey, h]
  | (k2, v2) :: rest => by
    by_cases h2 : k2 = k'
    · subst h2
      by_cases h : k2 = k <;> simp [upsert, findKey, h]
    · by_cases h3 : k2 = k
      · have hne : ¬k' = k := fun he => h2 (h3.trans he.symm)
        have hne' : ¬k = k' := fun he => hne he.symm
        simp [upsert, findKey, h2, h3, hne, hne']
      · simp [upsert, findKey, h2, h3, findKey_upsert k k' v rest]

/-- Every pair of an upserted mapping is the assigned pair or an old pair. -/
theorem upsert_mem (k : RowKey) (v : AppRow) :
    ∀ (m : List (RowKey × AppRow)) (p : RowKey × AppRow),
    p ∈ upsert m k v → p = (k, v) ∨ p ∈ m
  | [], p, hp => by
    simp only [upsert, List.mem_singleton] at hp
    exact Or.inl hp
  | (k2, v2) :: rest, p, hp => by
    by_cases h2 : k2 = k
    · simp only [upsert, if_pos h2, List.mem_cons] at hp
      rcases hp with h | h
      · exact Or.inl h
      · exact Or.inr (List.mem_cons_of_mem _ h)
    · simp only [upsert, if_neg h2, List.mem_cons] at hp
      rcases hp with h | h
      · exact Or.inr (h ▸ List.mem_cons_self _ _)
      · rcases upsert_mem k v rest p h with h' | h'
        · exact Or.inl h'
        · exact Or.inr (List.mem_cons_of_mem _ h')

/-- A dict assignment does not duplicate keys. -/
theorem upsert_keys_nodup (k : RowKey) (v : AppRow) :
    ∀ m : List (RowKey × AppRow),
    (m.map Prod.fst).Nodup → ((upsert m k v).map Prod.fst).Nodup
  | [], _ => by simp [upsert]
  | (k2, v2) :: rest, hnd => by
    rw [List.map_cons] at hnd
    obtain ⟨hk2, hndrest⟩ := List.nodup_cons.mp hnd
    by_cases h2 : k2 = k
    · rw [show upsert ((k2, v2) :: rest) k v = (k, v) :: rest from by
        simp [upsert, h2], List.map_cons]
      exact List.nodup_cons.mpr ⟨h2 ▸ hk2, hndrest⟩
    · rw [show upsert ((k2, v2) :: rest) k v = (k2, v2) :: upsert rest k v from by
        simp [upsert, h2], List.map_cons]
      refine List.nodup_cons.mpr ⟨?_, upsert_keys_nodup k v rest hndrest⟩
      intro hmem
      rcases List.mem_map.mp hmem with ⟨p, hp, hfst⟩
      rcases upsert_mem k v rest p hp with h' | h'
      · exact h2 ((congrArg Prod.fst h').symm.trans hfst).symm
      · exact hk2 (hfst ▸ List.mem_map_of_mem Prod.fst h')

/-- Every pair accumulated by the dedup loop that was not already in the
accumulator is keyed by its row's identity key and holds a valid row. -/
theorem dedupMapAux_mem :
    ∀ (apps : List AppRow) (m : List (RowKey × AppRow)) (p : RowKey × AppRow),
    p ∈ dedupMapAux m apps →
    p ∈ m ∨ (rowKey p.2 = p.1 ∧ rowCompanyBlank p.2 = false)
  | [], _, p, hp => Or.inl hp
  | a :: rest, m, p, hp => by
    simp only [dedupMapAux] at hp
    rcases dedupMapAux_mem rest _ p hp with h | h
    · by_cases hb : rowCompanyBlank a = true
      · rw [if_pos hb] at h
        exact Or.inl h
      · rw [if_neg hb] at h
        rcases upsert_mem (rowKey a) a m p h with h' | h'
        · refine Or.inr ?_
          rw [h']
          exact ⟨rfl, by revert hb; cases rowCompanyBlank a <;> simp⟩
        · exact Or.inl h'
    · exact Or.inr h

/-- The dedup loop preserves key distinctness of the accumulator. -/
theorem dedupMapAux_keys_nodup :
    ∀ (apps : List AppRow) (m : List (RowKey × AppRow)),
    (m.map Prod.fst).Nodup → ((dedupMapAux m apps).map Prod.fst).Nodup
  | [], _, hnd => hnd
  | a :: rest, m, hnd => by
    simp only [dedupMapAux]
    by_cases hb : rowCompanyBlank a = true
    · rw [if_pos hb]
      exact dedupMapAux_keys_nodup rest m hnd
    · rw [if_neg hb]
      exact dedupMapAux_keys_nodup rest _ (upsert_keys_nodup (rowKey a) a m hnd)

/-- The lookup of a key in the accumulated mapping is the last valid
occurrence of that key in the processed rows, falling back to the accumulator. -/
theorem findKey_dedupMapAux (k : RowKey) :
    ∀ (apps : List AppRow) (m : List (RowKey × AppRow)),
    findKey k (dedupMapAux m apps) =
      match lastMatch k apps with
      | some a => some a
      | none => findKey k m
  | [], m => by simp only [dedupMapAux, lastMatch]
  | a :: rest, m => by
    simp only [dedupMapAux, lastMatch, findKey_dedupMapAux k rest _]
    cases hl : lastMatch k rest with
    | some b => rfl
    | none =>
      dsimp only
      by_cases hb : rowCompanyBlank a = true
      · rw [if_pos hb, if_neg (by simp [hb])]
      · have hbF : rowCompanyBlank a = false := by
          revert hb; cases rowCompanyBlank a <;> simp
        rw [if_neg hb, findKey_upsert]
        by_cases hk : rowKey a = k
        · rw [if_pos hk, if_pos ⟨hbF, hk⟩]
        · rw [if_neg hk, if_neg (fun hcon => hk hcon.2)]

/-- No value of a mapping avoiding a key matches that key in its row. -/
theorem mapsnd_filter_nil (k : RowKey) : ∀ m : List (RowKey × AppRow),
    (∀ p ∈ m, rowKey p.2 = p.1) → ¬k ∈ m.map Prod.fst →
    (m.map Prod.snd).filter (fun b => rowKey b == k) = []
  | [], _, _ => rfl
  | (k2, v) :: rest, hinv, hnm => by
    have hkv : rowKey v = k2 := hinv (k2, v) (List.mem_cons_self _ _)
    have hne : (rowKey v == k) = false := by
      rw [hkv, beq_eq_false_iff_ne]
      intro he
      exact hnm (by rw [List.map_cons]; exact he ▸ List.mem_cons_self _ _)
    rw [List.map_cons, List.filter_cons]
    simp only [hne, Bool.false_eq_true, if_false]
    exact mapsnd_filter_nil k rest
      (fun p hp => hinv p (List.mem_cons_of_mem _ hp))
      (fun hk => hnm (by rw [List.map_cons]; exact List.mem_cons_of_mem _ hk))

/-- With well-keyed pairs and distinct keys, filtering the values of the
mapping by a key yields precisely the looked-up value. -/
theorem mapsnd_filter_findKey (k : RowKey) : ∀ m : List (RowKey × AppRow),
    (∀ p ∈ m, rowKey p.2 = p.1) → (m.map Prod.fst).Nodup →
    (m.map Prod.snd).filter (fun b => rowKey b == k) = (findKey k m).toList
  | [], _, _ => rfl
  | (k2, v) :: rest, hinv, hnd => by
    have hkv : rowKey v = k2 := hinv (k2, v) (List.mem_cons_self _ _)
    rw [List.map_cons] at hnd
    obtain ⟨hk2, hndrest⟩ := List.nodup_cons.mp hnd
    have hinvrest : ∀ p ∈ rest, rowKey p.2 = p.1 :=
      fun p hp => hinv p (List.mem_cons_of_mem _ hp)
    rw [List.map_cons, List.filter_cons]
    by_cases hk : k2 = k
    · have hbeq : (rowKey v == k) = true := by
        rw [hkv, hk]; exact beq_self_eq_true k
      simp only [hbeq, if_true]
      rw [mapsnd_filter_nil k rest hinvrest (hk ▸ hk2)]
      simp [findKey, hk]
    · have hbeq : (rowKey v == k) = false := by
        rw [hkv, beq_eq_false_iff_ne]; exact hk
      simp only [hbeq, Bool.false_eq_true, if_false]
      rw [mapsnd_filter_findKey k rest hinvrest hndrest]
      simp [findKey, hk]

/-! Lemmas about the rewrite loop writeOut. -/

/-- The rewrite loop preserves each row's identity key, in order. -/
theorem writeOut_rowKey_map (gen : String → Option String) (ts : String) :
    ∀ (rows : List AppRow) (files : FileStore),
    ((writeOut gen ts files rows).1).map rowKey = rows.map rowKey
  | [], _ => rfl
  | a :: rest, files => by
    rw [writeOut]
    cases hres : a.research with
    | some x =>
      dsimp only
      rw [List.map_cons, List.map_cons, writeOut_rowKey_map gen ts rest files]
    | none =>
      dsimp only
      rw [List.map_cons, List.map_cons, writeOut_rowKey_map gen ts rest _]
      rfl

/-- Every row written out carries a research value. -/
theorem writeOut_research_isSome (gen : String → Option String) (ts : String) :
    ∀ (rows : List AppRow) (files : FileStore) (b : AppRow),
    b ∈ (writeOut gen ts files rows).1 → b.research.isSome = true
  | [], _, b, h => absurd h (List.not_mem_nil b)
  | a :: rest, files, b, h => by
    rw [writeOut] at h
    cases hres : a.research with
    | some x =>
      rw [hres] at h
      dsimp only at h
      rcases List.mem_cons.mp h with rfl | hmem
      · rw [hres]; rfl
      · exact writeOut_research_isSome gen ts rest files b hmem
    | none =>
      rw [hres] at h
      dsimp only at h
      rcases List.mem_cons.mp h with rfl | hmem
      · rfl
      · exact writeOut_research_isSome gen ts rest _ b hmem

/-- The rewrite loop preserves validity (non-blank companies). -/
theorem writeOut_blank_false (gen : String → Option String) (ts : String) :
    ∀ (rows : List AppRow) (files : FileStore),
    (∀ a ∈ rows, rowCompanyBlank a = false) →
    ∀ b ∈ (writeOut gen ts files rows).1, rowCompanyBlank b = false
  | [], _, _, b, h => absurd h (List.not_mem_nil b)
  | a :: rest, files, hv, b, h => by
    have hva : rowCompanyBlank a = false := hv a (List.mem_cons_self _ _)
    have hvrest : ∀ a' ∈ rest, rowCompanyBlank a' = false :=
      fun a' ha' => hv a' (List.mem_cons_of_mem _ ha')
    rw [writeOut] at h
    cases hres : a.research with
    | some x =>
      rw [hres] at h
      dsimp only at h
      rcases List.mem_cons.mp h with rfl | hmem
      · exact hva
      · exact writeOut_blank_false gen ts rest files hvrest b hmem
    | none =>
      rw [hres] at h
      dsimp only at h
      rcases List.mem_cons.mp h with rfl | hmem
      · exact hva
      · exact writeOut_blank_false gen ts rest _ hvrest b hmem

/-- When every row already carries a research value the rewrite loop is the
identity and performs no cache access. -/
theorem writeOut_id_of_isSome (gen : String → Option String) (ts : String) :
    ∀ (rows : List AppRow) (files : FileStore),
    (∀ a ∈ rows, a.research.isSome = true) →
    writeOut gen ts files rows = (rows, files)
  | [], _, _ => rfl
  | a :: rest, files, h => by
    rw [writeOut]
    cases hres : a.research with
    | some x =>
      dsimp only
      rw [writeOut_id_of_isSome gen ts rest files
        (fun b hb => h b (List.mem_cons_of_mem _ hb))]
    | none =>
      have := h a (List.mem_cons_self _ _)
      rw [hres] at this
      simp at this

/-- If no input row matches a key, no written-out row matches it either. -/
theorem writeOut_filter_nil (gen : String → Option String) (ts : String)
    (k : RowKey) : ∀ (rows : List AppRow) (files : FileStore),
    rows.filter (fun b => rowKey b == k) = [] →
    ((writeOut gen ts files rows).1).filter (fun b => rowKey b == k) = []
  | [], _, _ => rfl
  | a :: rest, files, h => by
    rw [List.filter_cons] at h
    by_cases hp : (rowKey a == k) = true
    · rw [if_pos (by simpa using hp)] at h
      exact absurd h (List.cons_ne_nil _ _)
    · rw [if_neg (by simpa using hp)] at h
      rw [writeOut]
      cases hres : a.research with
      | some x =>
        dsimp only
        rw [List.filter_cons, if_neg (by simpa using hp)]
        exact writeOut_filter_nil gen ts k rest files h
      | none =>
        dsimp only
        rw [List.filter_cons]
        have hkey : rowKey { a with research := some (getCompanyResearch gen ts files a.company).body } = rowKey a := rfl
        rw [if_neg (by simpa [hkey] using hp)]
        exact writeOut_filter_nil gen ts k rest _ h

/-- If exactly one input row matches a key, exactly one written-out row does,
and it is that row up to an optional research backfill. -/
theorem writeOut_filter_single (gen : String → Option String) (ts : String)
    (k : RowKey) : ∀ (rows : List AppRow) (files : FileStore) (a0 : AppRow),
    rows.filter (fun b => rowKey b == k) = [a0] →
    ∃ w, ((writeOut gen ts files rows).1).filter (fun b => rowKey b == k) = [w] ∧
      w.title = a0.title ∧ w.company = a0.company ∧ w.status = a0.status ∧
      w.date = a0.date ∧ ∀ r, a0.research = some r → w.research = some r
  | [], _, a0, h => absurd h (by simp)
  | a :: rest, files, a0, h => by
    rw [List.filter_cons] at h
    by_cases hp : (rowKey a == k) = true
    · rw [if_pos (by simpa using hp)] at h
      injection h with h1 h2
      subst h1
      cases hres : a.research with
      | some x =>
        refine ⟨a, ?_, rfl, rfl, rfl, rfl, fun r hr => hres.trans hr⟩
        rw [writeOut]
        rw [hres]
        dsimp only
        rw [List.filter_cons, if_pos (by simpa using hp),
          writeOut_filter_nil gen ts k rest files h2]
      | none =>
        refine ⟨{ a with research := some (getCompanyResearch gen ts files a.company).body }, ?_, rfl, rfl, rfl, rfl, fun r hr => absurd hr (by simp)⟩
        rw [writeOut]
        rw [hres]
        dsimp only
        rw [List.filter_cons]
        have hkey : rowKey { a with research := some (getCompanyResearch gen ts files a.company).body } = rowKey a := rfl
        rw [if_pos (by simpa [hkey] using hp),
          writeOut_filter_nil gen ts k rest _ h2]
    · rw [if_neg (by simpa using hp)] at h
      cases hres : a.research with
      | some x =>
        obtain ⟨w, hw1, hw2, hw3, hw4, hw5, hw6⟩ :=
          writeOut_filter_single gen ts k rest files a0 h
        refine ⟨w, ?_, hw2, hw3, hw4, hw5, hw6⟩
        rw [writeOut]
        rw [hres]
        dsimp only
        rw [List.filter_cons, if_neg (by simpa using hp)]
        exact hw1
      | none =>
        obtain ⟨w, hw1, hw2, hw3, hw4, hw5, hw6⟩ :=
          writeOut_filter_single gen ts k rest
            (getCompanyResearch gen ts files a.company).files a0 h
        refine ⟨w, ?_, hw2, hw3, hw4, hw5, hw6⟩
        rw [writeOut]
        rw [hres]
        dsimp only
        rw [List.filter_cons]
        have hkey : rowKey { a with research := some (getCompanyResearch gen ts files a.company).body } = rowKey a := rfl
        rw [if_neg (by simpa [hkey] using hp)]
        exact hw1

/-- Unfolding of remove_duplicates on a readable nonempty store. -/
theorem remove_duplicates_cons (gen : String → Option String) (ts : String)
    (s0 : AppRow) (srest : List AppRow) (files : FileStore) :
    remove_duplicates true gen ts (s0 :: srest) files =
      ⟨true,
        (writeOut gen ts files ((dedupMap (s0 :: srest)).map Prod.snd)).1,
        (writeOut gen ts files ((dedupMap (s0 :: srest)).map Prod.snd)).2⟩ := rfl

/-! Claim C2: compaction keeps exactly the last occurrence of each key. -/

/-- Claim C2: for every readable store and every identity key whose last valid
occurrence in store order is a0, remove_duplicates retains exactly one row with
that key, and that row is a0 itself: its title, company, status and date are
those of the most recently appended duplicate, and its research is that of a0
whenever a0 carries one (only a missing research field is backfilled). This
covers in particular every store holding two or more valid rows with the same
key. -/
theorem dedup_last_occurrence_wins (gen : String → Option String) (ts : String)
    (store : List AppRow) (files : FileStore) (k : RowKey) (a0 : AppRow)
    (hlast : lastMatch k store = some a0) :
    ∃ w, ((remove_duplicates true gen ts store files).store.filter
        (fun b => rowKey b == k)) = [w] ∧
      w.title = a0.title ∧ w.company = a0.company ∧ w.status = a0.status ∧
      w.date = a0.date ∧ ∀ r, a0.research = some r → w.research = some r := by
  cases store with
  | nil => rw [lastMatch] at hlast; cases hlast
  | cons s0 srest =>
    rw [remove_duplicates_cons]
    have hinv : ∀ p ∈ dedupMap (s0 :: srest), rowKey p.2 = p.1 := by
      intro p hp
      rcases dedupMapAux_mem (s0 :: srest) [] p hp with h | h
      · cases h
      · exact h.1
    have hnodup : ((dedupMap (s0 :: srest)).map Prod.fst).Nodup :=
      dedupMapAux_keys_nodup (s0 :: srest) [] List.nodup_nil
    have hfilterV :
        ((dedupMap (s0 :: srest)).map Prod.snd).filter
          (fun b => rowKey b == k) = [a0] := by
      rw [mapsnd_filter_findKey k _ hinv hnodup]
      have hfk := findKey_dedupMapAux k (s0 :: srest) []
      rw [hlast] at hfk
      rw [dedupMap, hfk]
      rfl
    exact writeOut_filter_single gen ts k _ files a0 hfilterV

def rowW2a : AppRow := ⟨"A", "Co", "Submitted", "2024-01-01", some ""⟩

def rowW2b : AppRow := ⟨"A", "Co", "Interview", "2024-02-01", some ""⟩

/-- Witness for claim C2 on the two duplicate records of the spec example: the
second (Interview, 2024-02-01) is the survivor. -/
theorem dedup_last_occurrence_wins_witness :
    lastMatch ("a", "co") [rowW2a, rowW2b] = some rowW2b ∧
    ∃ w,
      ((remove_duplicates true (fun _ => none) "ts" [rowW2a, rowW2b]
          (fun _ => none)).store.filter (fun b => rowKey b == ("a", "co"))) = [w] ∧
        w.title = rowW2b.title ∧ w.company = rowW2b.company ∧
        w.status = rowW2b.status ∧ w.date = rowW2b.date ∧
        ∀ r, rowW2b.research = some r → w.research = some r :=
  ⟨by decide,
    dedup_last_occurrence_wins (fun _ => none) "ts" [rowW2a, rowW2b]
      (fun _ => none) ("a", "co") rowW2b (by decide)⟩

/-- Assignment of a fresh key appends the pair at the end. -/
theorem upsert_not_mem (k : RowKey) (v : AppRow) :
    ∀ m : List (RowKey × AppRow),
    ¬k ∈ m.map Prod.fst → upsert m k v = m ++ [(k, v)]
  | [], _ => rfl
  | (k2, v2) :: rest, h => by
    have hne : ¬k2 = k :=
      fun he => h (by rw [List.map_cons]; exact he ▸ List.mem_cons_self _ _)
    simp only [upsert, if_neg hne]
    rw [upsert_not_mem k v rest
      (fun hm => h (by rw [List.map_cons]; exact List.mem_cons_of_mem _ hm))]
    rfl

/-- On well-keyed pairs, the row keys of the values are the mapping keys. -/
theorem mapsnd_rowKey : ∀ m : List (RowKey × AppRow),
    (∀ p ∈ m, rowKey p.2 = p.1) →
    (m.map Prod.snd).map rowKey = m.map Prod.fst
  | [], _ => rfl
  | (k2, v) :: rest, hinv => by
    rw [List.map_cons, List.map_cons, List.map_cons,
      mapsnd_rowKey rest (fun p hp => hinv p (List.mem_cons_of_mem _ hp)),
      hinv (k2, v) (List.mem_cons_self _ _)]

/-- On valid rows with pairwise distinct keys the dedup loop just tags each row
with its key, in order. -/
theorem dedupMapAux_append :
    ∀ (rows : List AppRow) (m : List (RowKey × AppRow)),
    (∀ a ∈ rows, rowCompanyBlank a = false) →
    ((m.map Prod.fst) ++ rows.map rowKey).Nodup →
    dedupMapAux m rows = m ++ rows.map (fun a => (rowKey a, a))
  | [], m, _, _ => by simp [dedupMapAux]
  | a :: rest, m, hv, hnd => by
    have hva : rowCompanyBlank a = false := hv a (List.mem_cons_self _ _)
    simp only [dedupMapAux]
    rw [if_neg (by rw [hva]; exact Bool.false_ne_true)]
    have hknotin : ¬rowKey a ∈ m.map Prod.fst := by
      rcases List.nodup_append.mp (by simpa using hnd) with ⟨h1, h2, hdisj⟩
      intro hmem
      exact hdisj hmem (List.mem_cons_self _ _)
    rw [upsert_not_mem (rowKey a) a m hknotin]
    have hnd' : (((m ++ [(rowKey a, a)]).map Prod.fst) ++
        rest.map rowKey).Nodup := by
      rw [List.map_append, List.append_assoc]
      simpa using hnd
    rw [dedupMapAux_append rest (m ++ [(rowKey a, a)])
      (fun b hb => hv b (List.mem_cons_of_mem _ hb)) hnd']
    rw [List.append_assoc]
    rfl

/-- Untagging after tagging each row with its key gives back the rows. -/
theorem mapsnd_tag : ∀ l : List AppRow,
    (l.map (fun a => (rowKey a, a))).map Prod.snd = l
  | [] => rfl
  | x :: xs => by rw [List.map_cons, List.map_cons, mapsnd_tag xs]

/-! Claim C3: deduplication is idempotent. -/

/-- Claim C3: running remove_duplicates twice (threading the store and the
research directory) yields the same store and directory as one run; the second
run drops zero invalid records (the first output contains none) and merges
zero duplicates (the second accumulation keeps every row of the first output). -/
theorem dedup_idempotent (gen : String → Option String) (ts : String)
    (store : List AppRow) (files : FileStore) :
    ((remove_duplicates true gen ts
        (remove_duplicates true gen ts store files).store
        (remove_duplicates true gen ts store files).files).store =
      (remove_duplicates true gen ts store files).store ∧
    (remove_duplicates true gen ts
        (remove_duplicates true gen ts store files).store
        (remove_duplicates true gen ts store files).files).files =
      (remove_duplicates true gen ts store files).files) ∧
    (remove_duplicates true gen ts store files).store.filter rowCompanyBlank
      = [] ∧
    (dedupMap (remove_duplicates true gen ts store files).store).length =
      (remove_duplicates true gen ts store files).store.length := by
  cases store with
  | nil => exact ⟨⟨rfl, rfl⟩, rfl, rfl⟩
  | cons s0 srest =>
    rw [remove_duplicates_cons]
    dsimp only
    set V := (dedupMap (s0 :: srest)).map Prod.snd with hV
    set R := (writeOut gen ts files V).1 with hRdef
    set F := (writeOut gen ts files V).2 with hFdef
    have hinv : ∀ p ∈ dedupMap (s0 :: srest), rowKey p.2 = p.1 := by
      intro p hp
      rcases dedupMapAux_mem (s0 :: srest) [] p hp with h | h
      · cases h
      · exact h.1
    have hnodupkeys : ((dedupMap (s0 :: srest)).map Prod.fst).Nodup :=
      dedupMapAux_keys_nodup (s0 :: srest) [] List.nodup_nil
    have hvalidV : ∀ a ∈ V, rowCompanyBlank a = false := by
      intro a ha
      rcases List.mem_map.mp ha with ⟨p, hp, hpa⟩
      rcases dedupMapAux_mem (s0 :: srest) [] p hp with h | h
      · cases h
      · exact hpa ▸ h.2
    have hvalidR : ∀ b ∈ R, rowCompanyBlank b = false :=
      fun b hb => writeOut_blank_false gen ts V files hvalidV b hb
    have hsomeR : ∀ b ∈ R, b.research.isSome = true :=
      fun b hb => writeOut_research_isSome gen ts V files b hb
    have hkeysR : R.map rowKey = (dedupMap (s0 :: srest)).map Prod.fst := by
      rw [hRdef, writeOut_rowKey_map, hV, mapsnd_rowKey _ hinv]
    have hnodupR : (R.map rowKey).Nodup := by rw [hkeysR]; exact hnodupkeys
    have hdmR : dedupMap R = R.map (fun a => (rowKey a, a)) := by
      rw [dedupMap, dedupMapAux_append R [] hvalidR (by simpa using hnodupR)]
      rfl
    have ho2 : remove_duplicates true gen ts R F = ⟨true, R, F⟩ := by
      by_cases hRe : R = []
      · rw [hRe]
        rfl
      · obtain ⟨r0, rrest, hRc⟩ := List.exists_cons_of_ne_nil hRe
        rw [hRc, remove_duplicates_cons]
        have h1 : dedupMap (r0 :: rrest) =
            (r0 :: rrest).map (fun a => (rowKey a, a)) := by
          rw [← hRc]
          exact hdmR
        rw [h1, mapsnd_tag, writeOut_id_of_isSome gen ts (r0 :: rrest) F
          (by rw [← hRc]; exact hsomeR)]
    refine ⟨⟨?_, ?_⟩, ?_, ?_⟩
    · rw [ho2]
    · rw [ho2]
    · exact List.filter_eq_nil_iff.mpr (fun b hb => by simp [hvalidR b hb])
    · rw [hdmR, List.length_map]
